import Mathlib

/-!
Verification development for the Arque event-sourcing runtime
(packages/arque). The TypeScript adapters and core libraries are embedded
shallowly: SQL tables become lists of rows, a transaction becomes a pure
function from a store to `Except` of a store (ROLLBACK = the error branch
discards the working state), and the sequential semantics of one adapter
call at a time is modelled by explicit state passing. Machine reals,
wall-clock time, socket behaviour and the LRU's TTL/eviction are outside
the model; where a claim depends on them, the statement is restricted to
executions in which they play no role, and this is noted next to the
definition.

Buffers (aggregate ids, event ids) are modelled as `Nat` / `List Nat`:
the code treats them as opaque equality keys. Serialized JSON payloads
(`body`, `meta`, snapshot `state`) are opaque `Nat` payloads in the store
model; the wire codec (kafka serialization) gets its own structured value
model below.
-/

namespace Arque

/-- Row of the `aggregates` table (adapters/postgres/libs/schema.ts):
`id BYTEA PRIMARY KEY, version INTEGER, timestamp TIMESTAMPTZ, final BOOLEAN`.
The id is the association key of `Store.aggregates`. -/
structure AggregateRecord where
  version : Nat
  timestamp : Nat
  final : Bool
deriving DecidableEq, Repr

/-- Row of the `events` table: `id BYTEA PRIMARY KEY, type INTEGER,
aggregate_id BYTEA, aggregate_version INTEGER, body JSONB, meta JSONB,
timestamp TIMESTAMPTZ, final BOOLEAN`, with a unique index on
`(aggregate_id, aggregate_version)`. `body`/`meta` are opaque payloads. -/
structure EventRow where
  eventId : Nat
  type : Nat
  aggregate_id : Nat
  aggregate_version : Nat
  body : Option Nat
  meta : Nat
  timestamp : Nat
  final : Bool
deriving DecidableEq, Repr

/-- Row of the `snapshots` table: `PRIMARY KEY (aggregate_id, aggregate_version)`,
`state JSONB, timestamp TIMESTAMPTZ`. -/
structure SnapshotRow where
  aggregate_id : Nat
  aggregate_version : Nat
  state : Nat
  timestamp : Nat
deriving DecidableEq, Repr

/-- Row of the `projection_checkpoints` table:
`PRIMARY KEY (projection, aggregate_id)`, `aggregate_version INTEGER`.
The row timestamp (set with `NOW()`) is not modelled; no claim mentions it. -/
structure CheckpointRow where
  projection : String
  aggregate_id : Nat
  aggregate_version : Nat
deriving DecidableEq, Repr

/-- The persistent state behind one `PostgresStoreAdapter`: the four tables
created by `createTables`. -/
structure Store where
  aggregates : List (Nat × AggregateRecord)
  events : List EventRow
  snapshots : List SnapshotRow
  checkpoints : List CheckpointRow
deriving DecidableEq, Repr

/-- The store before any call: all tables empty. -/
def Store.empty : Store := ⟨[], [], [], []⟩

/-- Lookup of an aggregate record by id
(`SELECT ... FROM aggregates WHERE id = $1`). -/
def aggGet (aggs : List (Nat × AggregateRecord)) (id : Nat) :
    Option AggregateRecord :=
  (aggs.find? (fun p => p.1 == id)).map (·.2)

/-- Version recorded for an aggregate, `0` when no record exists. -/
def aggVersionD (s : Store) (id : Nat) : Nat :=
  (aggGet s.aggregates id).elim 0 (·.version)

/-- Rows matched by the `checkProjectionCheckpoint` query:
`SELECT 1 FROM projection_checkpoints WHERE projection = $1 AND
aggregate_id = $2 AND aggregate_version >= $3`. -/
def checkpointQueryRows (s : Store) (projection : String) (aggId ver : Nat) :
    List CheckpointRow :=
  s.checkpoints.filter fun r =>
    r.projection == projection && r.aggregate_id == aggId &&
      decide (ver ≤ r.aggregate_version)

/-- PostgresStoreAdapter.checkProjectionCheckpoint: runs the query above and
returns `rowCount === 0`. -/
def checkProjectionCheckpoint (s : Store) (projection : String)
    (aggId ver : Nat) : Bool :=
  (checkpointQueryRows s projection aggId ver).length == 0

/-- PostgresStoreAdapter.saveProjectionCheckpoint:
`INSERT ... ON CONFLICT (projection, aggregate_id) DO UPDATE SET
aggregate_version = $3`. -/
def saveProjectionCheckpoint (s : Store) (projection : String)
    (aggId ver : Nat) : Store :=
  if s.checkpoints.any
      (fun r => r.projection == projection && r.aggregate_id == aggId) then
    { s with checkpoints := s.checkpoints.map fun r =>
        if r.projection == projection && r.aggregate_id == aggId then
          { r with aggregate_version := ver }
        else r }
  else
    { s with checkpoints :=
        s.checkpoints ++ [⟨projection, aggId, ver⟩] }

/-- Errors surfaced by the store adapter. `pg code` stands for a raised
postgres error whose `err.code` is `code` (unique violation `23505`,
serialization failure `40001`, deadlock `40P01`, ...); the named errors are
the adapter's own classes (`AggregateIsFinalError`,
`AggregateVersionConflictError`), which carry no postgres `code`, plus the
node `assert.ok` failure at the top of `saveEvents`. -/
inductive SaveError where
  | aggregateIsFinal (id : Nat)
  | aggregateVersionConflict (id version : Nat)
  | pg (code : String)
  | assertion (msg : String)
deriving DecidableEq, Repr

/-- PostgresStoreAdapter.saveSnapshot (the body run by the single-slot
snapshot queue; the queue serializes calls, which the sequential model
already does): a plain
`INSERT INTO snapshots (aggregate_id, aggregate_version, state, timestamp)`
with no ON CONFLICT clause, so a duplicate
`(aggregate_id, aggregate_version)` raises the unique violation `23505`. -/
def saveSnapshot (s : Store) (aggId aggVer state ts : Nat) :
    Except SaveError Store :=
  if s.snapshots.any
      (fun r => r.aggregate_id == aggId && r.aggregate_version == aggVer) then
    .error (.pg "23505")
  else
    .ok { s with snapshots := s.snapshots ++ [⟨aggId, aggVer, state, ts⟩] }

/-- One element of the `events` argument of `saveEvents`
(`Pick<Event, 'id' | 'type' | 'body' | 'meta'>`). -/
structure EventInput where
  eventId : Nat
  type : Nat
  body : Option Nat
  meta : Nat
deriving DecidableEq, Repr

/-- The spread `{...event.meta, ...params.meta}`: with meta opaque, a batch
meta (when present) overrides the per-event meta. -/
def mergeMeta (eventMeta : Nat) (batchMeta : Option Nat) : Nat :=
  batchMeta.getD eventMeta

/-- `INSERT INTO aggregates (id, version, timestamp) VALUES ($1,$2,$3)`:
a duplicate primary key raises the unique violation `23505`. -/
def insertAggregate (aggs : List (Nat × AggregateRecord)) (id : Nat)
    (rec : AggregateRecord) : Except SaveError (List (Nat × AggregateRecord)) :=
  if (aggGet aggs id).isSome then .error (.pg "23505")
  else .ok (aggs ++ [(id, rec)])

/-- `UPDATE aggregates SET version = $1, timestamp = $2 WHERE id = $3 AND
version = $4 AND final IS NOT TRUE`: returns the updated table and the
`rowCount` of matched rows. -/
def updateAggregate (aggs : List (Nat × AggregateRecord))
    (id newVersion ts reqVersion : Nat) :
    List (Nat × AggregateRecord) × Nat :=
  (aggs.map fun p =>
      if p.1 == id && p.2.version == reqVersion && !p.2.final then
        (p.1, { p.2 with version := newVersion, timestamp := ts })
      else p,
   aggs.countP fun p =>
      p.1 == id && p.2.version == reqVersion && !p.2.final)

/-- `INSERT INTO events ...`: violating the `id` primary key or the unique
index on `(aggregate_id, aggregate_version)` raises `23505`. -/
def insertEventRow (rows : List EventRow) (row : EventRow) :
    Except SaveError (List EventRow) :=
  if rows.any (fun r => r.eventId == row.eventId) then .error (.pg "23505")
  else if rows.any (fun r =>
      r.aggregate_id == row.aggregate_id &&
        r.aggregate_version == row.aggregate_version) then
    .error (.pg "23505")
  else .ok (rows ++ [row])

/-- The `for (let index = 0; ...)` insert loop of `saveEvents`: event number
`index` is written at `aggregate_version = params.aggregate.version + index`
with the batch timestamp and merged meta. -/
def insertEventRows (rows : List EventRow) (aggId version ts : Nat)
    (events : List EventInput) (batchMeta : Option Nat) :
    Except SaveError (List EventRow) :=
  match events with
  | [] => .ok rows
  | e :: rest =>
      match insertEventRow rows
          ⟨e.eventId, e.type, aggId, version, e.body,
            mergeMeta e.meta batchMeta, ts, false⟩ with
      | .error err => .error err
      | .ok rows' => insertEventRows rows' aggId (version + 1) ts rest batchMeta

/-- One `BEGIN ... COMMIT` attempt of `PostgresStoreAdapter.saveEvents`:
read `final` from the aggregate record; for version 1 insert the record
(translating a unique violation into `AggregateVersionConflictError`),
otherwise update it from `version - 1` and treat `rowCount === 0` as the
conflict; then insert the event rows. An error is a ROLLBACK: the returned
store is only the committed one. -/
def saveEventsAttempt (s : Store) (aggId version ts : Nat)
    (events : List EventInput) (batchMeta : Option Nat) :
    Except SaveError Store :=
  if (aggGet s.aggregates aggId).elim false (·.final) then
    .error (.aggregateIsFinal aggId)
  else
    match
      (if version == 1 then
        match insertAggregate s.aggregates aggId
            ⟨events.length, ts, false⟩ with
        | .error e =>
            if e == SaveError.pg "23505" then
              .error (.aggregateVersionConflict aggId version)
            else .error e
        | .ok l => .ok l
      else
        if (updateAggregate s.aggregates aggId
            (version + events.length - 1) ts (version - 1)).2 == 0 then
          .error (.aggregateVersionConflict aggId version)
        else
          .ok (updateAggregate s.aggregates aggId
            (version + events.length - 1) ts (version - 1)).1 :
        Except SaveError (List (Nat × AggregateRecord)))
    with
    | .error e => .error e
    | .ok aggs =>
        match insertEventRows s.events aggId version ts events batchMeta with
        | .error e => .error e
        | .ok rows => .ok { s with aggregates := aggs, events := rows }

/-- The `retry` predicate passed to `backOff` in `saveEvents`:
`['40001', '40P01'].includes(err.code)`. The adapter's own error classes and
assertion failures carry no postgres `code`, so they are never retried. -/
def retrySaveCode (e : SaveError) : Bool :=
  match e with
  | .pg c => c == "40001" || c == "40P01"
  | _ => false

/-- The control flow of the `exponential-backoff` package's `backOff`:
run the attempt; on error consult the retry predicate and, while attempts
remain below `numOfAttempts`, try again; otherwise surface the last error.
`i` is the zero-based attempt number. -/
def backOffRun {α : Type} (attempt : Nat → Except SaveError α)
    (retryP : SaveError → Bool) : (numOfAttempts i : Nat) → Except SaveError α
  | 0, _ => .error (.assertion "numOfAttempts must be greater than 0")
  | 1, i => attempt i
  | n + 2, i =>
      match attempt i with
      | .ok a => .ok a
      | .error e =>
          if retryP e then backOffRun attempt retryP (n + 1) (i + 1)
          else .error e

/-- Constructor default `retryStartingDelay: 100` (milliseconds). -/
def retryStartingDelayDefault : Nat := 100

/-- Constructor default `retryMaxDelay: 1600` (milliseconds). -/
def retryMaxDelayDefault : Nat := 1600

/-- Constructor default `retryMaxAttempts: 20`. -/
def retryMaxAttemptsDefault : Nat := 20

/-- Modelled from the spec: the delay before zero-based retry `n` of the
`exponential-backoff` package (whose source is not in the repository) —
exponential backoff from `startingDelay`, doubling each attempt, capped at
`maxDelay`. -/
def backOffDelay (startingDelay maxDelay n : Nat) : Nat :=
  min (startingDelay * 2 ^ n) maxDelay

/-- PostgresStoreAdapter.saveEvents: the `assert.ok(version > 0)` guard,
then the transaction attempt under `backOff`. `faults` injects transient
persistence failures: when `faults.getD i none = some code`, attempt `i`
fails with the postgres error `code` (connection lost, serialization
failure, deadlock, ...); a `none` entry lets the attempt run the
transaction, which acts on the same store because failed attempts rolled
back. -/
def saveEvents (s : Store) (aggId version ts : Nat)
    (events : List EventInput) (batchMeta : Option Nat)
    (faults : List (Option String)) (numOfAttempts : Nat) :
    Except SaveError Store :=
  if version > 0 then
    backOffRun
      (fun i =>
        match faults.getD i none with
        | some code => .error (.pg code)
        | none => saveEventsAttempt s aggId version ts events batchMeta)
      retrySaveCode numOfAttempts 0
  else .error (.assertion "aggregate version must be greater than 0")

/-- The store a caller observes after `saveEvents`: the committed store on
success, the unchanged input store when the call surfaced an error
(every failed attempt rolled its transaction back). -/
def saveEventsRun (s : Store) (aggId version ts : Nat)
    (events : List EventInput) (batchMeta : Option Nat)
    (faults : List (Option String)) (numOfAttempts : Nat) : Store :=
  match saveEvents s aggId version ts events batchMeta faults numOfAttempts with
  | .ok s' => s'
  | .error _ => s

/-- The `ORDER BY aggregate_id ASC, aggregate_version ASC` comparison of
`listEvents`. -/
def eventLe (a b : EventRow) : Bool :=
  decide (a.aggregate_id < b.aggregate_id) ||
    (a.aggregate_id == b.aggregate_id &&
      decide (a.aggregate_version ≤ b.aggregate_version))

/-- PostgresStoreAdapter.listEvents: filter by the optional aggregate id,
the optional exclusive version lower bound and the optional type, then sort.
The version condition is added only when `params.aggregate.version` is
truthy, so a version of `0` (like an absent one) adds no condition. -/
def listEvents (s : Store) (aggregate : Option (Nat × Option Nat))
    (type : Option Nat) : List EventRow :=
  (s.events.filter fun r =>
      (match aggregate with
       | none => true
       | some (id, ver?) =>
          r.aggregate_id == id &&
            (match ver? with
             | none => true
             | some ver =>
                if ver == 0 then true
                else decide (ver < r.aggregate_version))) &&
      (match type with
       | none => true
       | some t => r.type == t)).mergeSort eventLe

/-- PostgresStoreAdapter.finalizeAggregate: inside one transaction,
`UPDATE aggregates SET final = TRUE WHERE id = $1` and
`UPDATE events SET final = TRUE WHERE aggregate_id = $1`. In the sequential
model the transaction always commits (`backOff` returns its first
successful attempt). -/
def finalizeAggregate (s : Store) (id : Nat) : Store :=
  { s with
    aggregates := s.aggregates.map fun p =>
      if p.1 == id then (p.1, { p.2 with final := true }) else p,
    events := s.events.map fun r =>
      if r.aggregate_id == id then { r with final := true } else r }

/-- One store-adapter call of the kind claim C4 quantifies over. -/
inductive StoreOp where
  | save (aggId version ts : Nat) (events : List EventInput)
      (batchMeta : Option Nat) (faults : List (Option String))
      (numOfAttempts : Nat)
  | finalize (aggId : Nat)
deriving Repr

/-- Effect of one call on the store: a failed `saveEvents` rolls back and
leaves the store unchanged, so a trace of arbitrary calls visits exactly
the states reachable by its successful calls. -/
def runOp (s : Store) : StoreOp → Store
  | .save aggId version ts events batchMeta faults n =>
      saveEventsRun s aggId version ts events batchMeta faults n
  | .finalize aggId => finalizeAggregate s aggId

/-- A sequence of store-adapter calls starting from the empty store. -/
def runOps (ops : List StoreOp) : Store :=
  ops.foldl runOp Store.empty

/-- The rows `saveEvents` writes for a batch: event `index` at
`aggregate_version = version + index`. -/
def eventRowsOf (aggId version ts : Nat) (events : List EventInput)
    (batchMeta : Option Nat) : List EventRow :=
  match events with
  | [] => []
  | e :: rest =>
      ⟨e.eventId, e.type, aggId, version, e.body,
        mergeMeta e.meta batchMeta, ts, false⟩ ::
        eventRowsOf aggId (version + 1) ts rest batchMeta

/-- An event as the Broker sees it from the `main` stream (subscribed with
`raw: true`): the broker only reads `type` and forwards the whole event, so
everything else is kept opaque in `payload`. -/
structure RawEvent where
  type : Nat
  payload : Nat
deriving DecidableEq, Repr

/-- One `stream.sendEvents(batches, { raw: true })` call. -/
structure SendCall where
  batches : List (String × List RawEvent)
  raw : Bool
deriving DecidableEq, Repr

/-- The handler Broker.start installs on the `main` stream: look up
`config.findStreams(event.type)`; when the list is empty, log and return
without sending (`none`); otherwise send
`streams.map(stream => ({stream, events: [event]}))` with `raw: true`. -/
def brokerOnEvent (findStreamsResult : Nat → List String) (event : RawEvent) :
    Option SendCall :=
  let streams := findStreamsResult event.type
  if streams.length == 0 then none
  else some ⟨streams.map fun stream => (stream, [event]), true⟩

/-- One entry of the `eventHandlers` array given to a Projection: its
`type` and, in place of the `handle` function, whether this delivery's
`handle({state}, event)` invocation throws. -/
structure ProjHandlerSpec where
  type : Nat
  throws : Bool
deriving DecidableEq, Repr

/-- Lookup in `new Map(eventHandlers.map(item => [item.type, item]))`:
a JavaScript Map keeps the last entry written for a key. -/
def handlersMapGet (hs : List ProjHandlerSpec) (t : Nat) :
    Option ProjHandlerSpec :=
  (hs.filter (·.type == t)).getLast?

/-- What one `Projection.handleEvent` call did: whether the handler was
invoked, whether it threw (the error is rethrown to the subscriber's retry
loop), and whether `saveProjectionCheckpoint` was called. -/
structure ProjOutcome where
  handlerInvoked : Bool
  threw : Bool
  checkpointSaved : Bool
deriving DecidableEq, Repr

/-- Projection.handleEvent: look up the handler by `event.type` (warn and
return when missing); ask `checkProjectionCheckpoint` whether to process;
on `true` invoke the handler — rethrowing its error without saving — and
on success call `saveProjectionCheckpoint`; on `false` skip the duplicate. -/
def handleEvent (hs : List ProjHandlerSpec) (s : Store) (projId : String)
    (evType aggId aggVer : Nat) : ProjOutcome × Store :=
  match handlersMapGet hs evType with
  | none => (⟨false, false, false⟩, s)
  | some h =>
      let shouldProcess := checkProjectionCheckpoint s projId aggId aggVer
      if shouldProcess then
        if h.throws then (⟨true, true, false⟩, s)
        else (⟨true, false, true⟩, saveProjectionCheckpoint s projId aggId aggVer)
      else (⟨false, false, false⟩, s)

/-- The in-memory flag Projection.start guards on: `subscriber !== null`. -/
structure ProjectionState where
  started : Bool
deriving DecidableEq, Repr

/-- Externally visible calls Projection.start can make. -/
inductive StartEffect where
  | saveStreamCall (id : String) (events : List Nat)
  | subscribeCall (stream : String)
deriving DecidableEq, Repr

/-- Insertion-ordered deduplication, as `[...new Set(list)]` computes it. -/
def jsSetDedup (l : List Nat) : List Nat :=
  l.foldl (fun acc x => if acc.contains x then acc else acc ++ [x]) []

/-- Projection.start: throw `already started` when a subscriber is already
installed (performing nothing); otherwise register the distinct handler
event types with `config.saveStream` (unless `disableSaveStream`), then
subscribe to the projection's own stream and record the subscriber.
Returns the new state, the effects performed, and the error if any. -/
def projectionStart (p : ProjectionState) (projId : String)
    (handlerTypes : List Nat) (disableSaveStream : Bool) :
    ProjectionState × List StartEffect × Option String :=
  if p.started then (p, [], some "already started")
  else
    (⟨true⟩,
     (if disableSaveStream then []
      else [.saveStreamCall projId (jsSetDedup handlerTypes)]) ++
       [.subscribeCall projId],
     none)

/-- State of a ConfigAdapter (Mongo or Postgres variant — their
`findStreams`/`saveStream` logic is the same): the `streams` table mapping
stream id to its registered event types, and the LRU cache keyed by event
type. TTL expiry and size eviction are wall-clock and capacity effects not
modelled; the model covers executions in which no cache entry is evicted
between the calls under consideration. -/
structure ConfigState where
  table : List (String × List Nat)
  cache : List (Nat × List String)
deriving DecidableEq, Repr

/-- `this.cache.get(event)`: `none` models the JavaScript `undefined`. -/
def cacheGet (c : List (Nat × List String)) (t : Nat) :
    Option (List String) :=
  (c.find? (·.1 == t)).map (·.2)

/-- `this.cache.set(event, streams)`: overwrite the entry for the key or
insert one. -/
def cacheSet (c : List (Nat × List String)) (t : Nat) (v : List String) :
    List (Nat × List String) :=
  match c with
  | [] => [(t, v)]
  | p :: rest => if p.1 == t then (p.1, v) :: rest else p :: cacheSet rest t v

/-- ConfigAdapter.saveStream: upsert of the stream registration keyed by
`id` (`ON CONFLICT (id) DO UPDATE SET events = $2` / `updateOne ...
{upsert: true}`). The cache is not touched. -/
def saveStream (st : ConfigState) (id : String) (events : List Nat) :
    ConfigState :=
  { st with table :=
      if st.table.any (·.1 == id) then
        st.table.map fun p => if p.1 == id then (p.1, events) else p
      else st.table ++ [(id, events)] }

/-- ConfigAdapter.findStreams: `let streams = this.cache.get(event);
if (streams) return streams;` — any cached array, the empty one included,
is truthy and is returned as is. On a cache miss, run the reverse lookup
(`WHERE $1 = ANY(events)` / `find({events: event})`), cache the result
(empty or not) and return it. -/
def findStreams (st : ConfigState) (t : Nat) : List String × ConfigState :=
  match cacheGet st.cache t with
  | some streams => (streams, st)
  | none =>
      let streams := (st.table.filter fun p => p.2.contains t).map (·.1)
      (streams, { st with cache := cacheSet st.cache t streams })

namespace Kafka

/-- A value of one of the kinds the wire contract supports inside `body`
and `meta` records: null, numbers, strings, booleans, byte strings
(Buffer) and timestamps (Date, millisecond precision). -/
inductive JoVal where
  | null
  | num (n : Int)
  | str (s : String)
  | bool (b : Bool)
  | bytes (data : List Nat)
  | date (ms : Nat)
deriving DecidableEq, Repr

/-- A `Record<string, unknown>` whose values are supported kinds: the shape
of an event `body` (when non-null) and `meta`. -/
def JoDoc := List (String × JoVal)
deriving instance DecidableEq, Repr for JoDoc

/-- A JSON tree, the image of `JSON.parse`. `JSON.stringify`/`JSON.parse`
are modelled as a lossless pair on such trees, so byte vectors holding
serialized JSON are represented by the tree itself. -/
inductive Json where
  | null
  | num (n : Int)
  | str (s : String)
  | bool (b : Bool)
  | arr (items : List Json)
  | obj (fields : List (String × Json))

/-- Modelled from the spec: the `@scaleforge/joser` serializer (the package
source is not in the repository) passes `null`, numbers, strings and
booleans through and encodes registered types — byte strings and
timestamps — as tagged JSON objects. -/
def joserSerializeVal : JoVal → Json
  | .null => .null
  | .num n => .num n
  | .str s => .str s
  | .bool b => .bool b
  | .bytes data =>
      .obj [("__t", .str "Buffer"),
        ("__v", .arr (data.map fun b => .num (Int.ofNat b)))]
  | .date ms => .obj [("__t", .str "Date"), ("__v", .num (Int.ofNat ms))]

/-- Modelled from the spec: the `@scaleforge/joser` deserializer recognizes
the tagged objects and restores the registered types; plain values pass
through. Unrecognized shapes fall back to `null`. -/
def joserDeserializeVal : Json → JoVal
  | .null => .null
  | .num n => .num n
  | .str s => .str s
  | .bool b => .bool b
  | .obj [("__t", .str "Buffer"), ("__v", .arr items)] =>
      .bytes (items.map fun i =>
        match i with
        | .num n => n.toNat
        | _ => 0)
  | .obj [("__t", .str "Date"), ("__v", .num n)] => .date n.toNat
  | _ => .null

/-- `joser.serialize` on a record: serialize each field. -/
def joserSerializeDoc (d : JoDoc) : Json :=
  .obj (d.map fun p => (p.1, joserSerializeVal p.2))

/-- `joser.deserialize` on a serialized record. -/
def joserDeserializeDoc : Json → JoDoc
  | .obj fields => fields.map fun p => (p.1, joserDeserializeVal p.2)
  | _ => []

/-- An event handed to the kafka `serialize` (adapters/kafka/libs/types.ts):
id bytes, `type` and `aggregate.version` u32, 13-byte aggregate id, body
record or null, meta record, millisecond timestamp (`Date`). -/
structure KafkaEvent where
  id : List Nat
  type : Nat
  aggregate_id : List Nat
  aggregate_version : Nat
  body : Option JoDoc
  meta : JoDoc
  timestamp : Nat
deriving DecidableEq, Repr

/-- The flatbuffers frame `serialize` builds (the generated flatbuffers
layout is external code, modelled as a record of its fields): byte vectors
for id and aggregate id, u32 `type`, `aggregate_version` and `timestamp`,
an optional body vector and a meta vector, each holding serialized JSON
and therefore modelled by the JSON tree. -/
structure WireFrame where
  id : List Nat
  type : Nat
  aggregate_id : List Nat
  aggregate_version : Nat
  body : Option Json
  meta : Json
  timestamp : Nat

/-- Kafka `serialize` in decoded (non-raw) mode: a null body stays absent
(`addBody` is only called for a truthy body); a record body and the meta
go through `joser.serialize` and `JSON.stringify`; the timestamp is written
as `Math.floor(event.timestamp.getTime() / 1000)` — whole seconds — into a
u32 field, and the u32 fields wrap at `2 ^ 32`. -/
def serialize (e : KafkaEvent) : WireFrame :=
  { id := e.id,
    type := e.type % 2 ^ 32,
    aggregate_id := e.aggregate_id,
    aggregate_version := e.aggregate_version % 2 ^ 32,
    body := e.body.map joserSerializeDoc,
    meta := joserSerializeDoc e.meta,
    timestamp := e.timestamp / 1000 % 2 ^ 32 }

/-- Kafka `deserialize` in decoded (non-raw) mode: an absent body vector
(`bodyArray() === null`) becomes `null`; body and meta run through
`JSON.parse` and `joser.deserialize`; the timestamp is rebuilt with
`new Date(event.timestamp() * 1000)`. -/
def deserialize (f : WireFrame) : KafkaEvent :=
  { id := f.id,
    type := f.type,
    aggregate_id := f.aggregate_id,
    aggregate_version := f.aggregate_version,
    body := f.body.map joserDeserializeDoc,
    meta := joserDeserializeDoc f.meta,
    timestamp := f.timestamp * 1000 }

end Kafka

/-- Decidable equality of adapter results, for evaluating concrete calls. -/
instance {ε α : Type} [DecidableEq ε] [DecidableEq α] :
    DecidableEq (Except ε α)
  | .ok a, .ok b =>
      if h : a = b then .isTrue (by rw [h]) else .isFalse (by simp [h])
  | .ok _, .error _ => .isFalse (by simp)
  | .error _, .ok _ => .isFalse (by simp)
  | .error e, .error f =>
      if h : e = f then .isTrue (by rw [h]) else .isFalse (by simp [h])

/-- The event rows for aggregate `id`, in insertion order (the unsorted
log). -/
def logRows (s : Store) (id : Nat) : List EventRow :=
  s.events.filter fun r => r.aggregate_id == id

/-- The stored log for aggregate `id` ends at version `n`: its rows carry
versions `1, 2, ..., n` in insertion order (`n = 0` means no rows). -/
def logEndsAt (s : Store) (id n : Nat) : Prop :=
  (logRows s id).map (·.aggregate_version) = List.range' 1 n

instance (s : Store) (id n : Nat) : Decidable (logEndsAt s id n) := by
  unfold logEndsAt; infer_instance

/-- Store well-formedness: aggregate-record keys are distinct and, for
every id, the stored log ends exactly at the version the aggregate record
carries (at `0` when there is no record). -/
def StoreInv (s : Store) : Prop :=
  (s.aggregates.map Prod.fst).Nodup ∧
    ∀ id, logEndsAt s id (aggVersionD s id)

/-! Theorems. -/

/-- C1. `checkProjectionCheckpoint` returns `true` exactly when the store
holds no checkpoint row for `(projection, aggregate id)` whose stored
version is at least the passed version, and `false` whenever such a row
exists (a duplicate delivery). -/
theorem checkProjectionCheckpoint_true_iff_no_covering_row
    (s : Store) (p : String) (id v : Nat) :
    checkProjectionCheckpoint s p id v = true ↔
      ¬ ∃ r ∈ s.checkpoints,
          r.projection = p ∧ r.aggregate_id = id ∧ v ≤ r.aggregate_version := by
  simp only [checkProjectionCheckpoint, checkpointQueryRows, beq_iff_eq,
    List.length_eq_zero, List.filter_eq_nil_iff, Bool.and_eq_true,
    decide_eq_true_eq, not_exists, not_and]
  constructor
  · intro h r hr hp hid
    have := h r hr
    tauto
  · intro h r hr
    have := h r hr
    tauto

/-- C5. For every event from the `main` stream: with a non-empty
`findStreams` result the broker issues one raw `sendEvents` call holding
exactly one single-event batch per returned stream; with an empty result it
sends nothing. -/
theorem brokerOnEvent_fanout (cfg : Nat → List String) (ev : RawEvent) :
    (brokerOnEvent cfg ev = none ↔ cfg ev.type = []) ∧
      ∀ c, brokerOnEvent cfg ev = some c →
        c.raw = true ∧ c.batches.map Prod.fst = cfg ev.type ∧
          ∀ b ∈ c.batches, b.2 = [ev] := by
  cases h : cfg ev.type with
  | nil =>
      constructor
      · simp [brokerOnEvent, h]
      · intro c hc
        simp [brokerOnEvent, h] at hc
  | cons x xs =>
      constructor
      · simp [brokerOnEvent, h]
      · intro c hc
        simp only [brokerOnEvent, h, List.length_cons] at hc
        rw [if_neg (by simp)] at hc
        cases hc
        refine ⟨rfl, ?_, ?_⟩
        · simp only [List.map_map]
          exact (List.map_congr_left fun a _ => rfl).trans (List.map_id _)
        · intro b hb
          simp only [List.mem_map] at hb
          obtain ⟨stream, _, rfl⟩ := hb
          rfl

/-- C5, witness: with two streams registered for type 7, the broker emits
one raw call with one single-event batch per stream. -/
theorem brokerOnEvent_fanout_witness :
    (⟨[("a", [⟨7, 0⟩]), ("b", [⟨7, 0⟩])], true⟩ : SendCall).raw = true ∧
    (⟨[("a", [⟨7, 0⟩]), ("b", [⟨7, 0⟩])], true⟩ : SendCall).batches.map Prod.fst
        = (fun t => if t = 7 then ["a", "b"] else []) (⟨7, 0⟩ : RawEvent).type ∧
    ∀ b ∈ (⟨[("a", [⟨7, 0⟩]), ("b", [⟨7, 0⟩])], true⟩ : SendCall).batches,
      b.2 = [(⟨7, 0⟩ : RawEvent)] :=
  (brokerOnEvent_fanout (fun t => if t = 7 then ["a", "b"] else []) ⟨7, 0⟩).2
    _ (by decide)

/-- C6. `saveProjectionCheckpoint` is called exactly when a handler for the
event type exists, `checkProjectionCheckpoint` returned `true` and the
handler completed without throwing; a throwing handler propagates and
leaves the checkpoint table untouched; a duplicate or unhandled event
invokes neither the handler nor the checkpoint save. -/
theorem handleEvent_checkpoint_save_iff (hs : List ProjHandlerSpec)
    (s : Store) (projId : String) (t id v : Nat) :
    ((handleEvent hs s projId t id v).1.checkpointSaved = true ↔
        ∃ h, handlersMapGet hs t = some h ∧ h.throws = false ∧
          checkProjectionCheckpoint s projId id v = true) ∧
    ((handleEvent hs s projId t id v).1.threw = true →
        (handleEvent hs s projId t id v).2 = s ∧
        (handleEvent hs s projId t id v).1.checkpointSaved = false) ∧
    (handlersMapGet hs t = none →
        (handleEvent hs s projId t id v).1 = ⟨false, false, false⟩ ∧
        (handleEvent hs s projId t id v).2 = s) ∧
    (checkProjectionCheckpoint s projId id v = false →
        (handleEvent hs s projId t id v).1.handlerInvoked = false ∧
        (handleEvent hs s projId t id v).1.checkpointSaved = false ∧
        (handleEvent hs s projId t id v).2 = s) := by
  cases hh : handlersMapGet hs t with
  | none => simp [handleEvent, hh]
  | some h =>
      cases hc : checkProjectionCheckpoint s projId id v with
      | false => simp [handleEvent, hh, hc]
      | true =>
          cases ht : h.throws with
          | false => simp [handleEvent, hh, hc, ht]
          | true => simp [handleEvent, hh, hc, ht]

/-- C6, witness: a non-throwing handler for type 3, a fresh checkpoint
table — the handler runs and the checkpoint is saved. -/
theorem handleEvent_checkpoint_save_iff_witness :
    ((handleEvent [⟨3, false⟩] Store.empty "proj" 3 1 1).1.checkpointSaved = true ↔
        ∃ h, handlersMapGet [⟨3, false⟩] 3 = some h ∧ h.throws = false ∧
          checkProjectionCheckpoint Store.empty "proj" 1 1 = true) ∧
    ((handleEvent [⟨3, false⟩] Store.empty "proj" 3 1 1).1.threw = true →
        (handleEvent [⟨3, false⟩] Store.empty "proj" 3 1 1).2 = Store.empty ∧
        (handleEvent [⟨3, false⟩] Store.empty "proj" 3 1 1).1.checkpointSaved = false) ∧
    (handlersMapGet [⟨3, false⟩] 3 = none →
        (handleEvent [⟨3, false⟩] Store.empty "proj" 3 1 1).1 = ⟨false, false, false⟩ ∧
        (handleEvent [⟨3, false⟩] Store.empty "proj" 3 1 1).2 = Store.empty) ∧
    (checkProjectionCheckpoint Store.empty "proj" 1 1 = false →
        (handleEvent [⟨3, false⟩] Store.empty "proj" 3 1 1).1.handlerInvoked = false ∧
        (handleEvent [⟨3, false⟩] Store.empty "proj" 3 1 1).1.checkpointSaved = false ∧
        (handleEvent [⟨3, false⟩] Store.empty "proj" 3 1 1).2 = Store.empty) :=
  handleEvent_checkpoint_save_iff [⟨3, false⟩] Store.empty "proj" 3 1 1

/-- C7, counterexample: `saveSnapshot` is not an upsert — the second call
with the same `(aggregate id, version)` key does not succeed; it raises the
unique violation. -/
theorem saveSnapshot_upsert_counterexample :
    saveSnapshot Store.empty 1 5 42 0 =
      .ok ⟨[], [], [⟨1, 5, 42, 0⟩], []⟩ ∧
    saveSnapshot ⟨[], [], [⟨1, 5, 42, 0⟩], []⟩ 1 5 43 1 =
      .error (.pg "23505") := ⟨rfl, rfl⟩

/-- C7, amended: `saveSnapshot` is a plain insert keyed by
`(aggregate.id, aggregate.version)`: a first call for a fresh key appends
the row, and a second call with the same key fails with the unique
violation `23505`, leaving exactly the one existing row for that key. -/
theorem saveSnapshot_second_call_fails (s s1 : Store)
    (id v st ts st' ts' : Nat)
    (h : saveSnapshot s id v st ts = .ok s1) :
    saveSnapshot s1 id v st' ts' = .error (.pg "23505") ∧
    s1.snapshots = s.snapshots ++ [⟨id, v, st, ts⟩] ∧
    (s1.snapshots.filter fun r =>
        r.aggregate_id == id && r.aggregate_version == v).length = 1 := by
  unfold saveSnapshot at h
  by_cases hany : s.snapshots.any
      (fun r => r.aggregate_id == id && r.aggregate_version == v) = true
  · rw [if_pos hany] at h
    exact absurd h (by simp)
  · rw [if_neg hany] at h
    cases h
    have hnil : s.snapshots.filter
        (fun r => r.aggregate_id == id && r.aggregate_version == v) = [] := by
      rw [List.filter_eq_nil_iff]
      intro r hr
      intro hpr
      exact hany (List.any_eq_true.mpr ⟨r, hr, hpr⟩)
    refine ⟨?_, rfl, ?_⟩
    · simp [saveSnapshot, List.any_append]
    · simp [List.filter_append, hnil]

/-- C7, witness for the amended statement: a fresh key, then the same key
again. -/
theorem saveSnapshot_second_call_fails_witness :
    saveSnapshot Store.empty 2 3 7 0 = .ok ⟨[], [], [⟨2, 3, 7, 0⟩], []⟩ ∧
    (saveSnapshot ⟨[], [], [⟨2, 3, 7, 0⟩], []⟩ 2 3 8 1 =
        .error (.pg "23505") ∧
      (⟨[], [], [⟨2, 3, 7, 0⟩], []⟩ : Store).snapshots =
        Store.empty.snapshots ++ [⟨2, 3, 7, 0⟩] ∧
      ((⟨[], [], [⟨2, 3, 7, 0⟩], []⟩ : Store).snapshots.filter fun r =>
          r.aggregate_id == 2 && r.aggregate_version == 3).length = 1) :=
  ⟨rfl, saveSnapshot_second_call_fails Store.empty _ 2 3 7 0 8 1 rfl⟩

/-- Setting a cache key makes lookup of that key return the stored value. -/
theorem cacheGet_cacheSet_self (c : List (Nat × List String)) (t : Nat)
    (v : List String) : cacheGet (cacheSet c t v) t = some v := by
  induction c with
  | nil => simp [cacheSet, cacheGet]
  | cons p rest ih =>
      by_cases hp : p.1 == t
      · simp [cacheSet, cacheGet, hp]
      · simp only [cacheSet, if_neg hp]
        simpa [cacheGet, List.find?, hp] using ih

/-- C8, counterexample: `findStreams` does cache an empty result, and a
JavaScript `if (streams)` treats the cached empty array as truthy, so after
`saveStream` registers a stream for type 7 the same adapter instance still
answers with the stale empty list instead of the new stream. -/
theorem findStreams_no_negative_caching_counterexample :
    (findStreams ⟨[], []⟩ 7).1 = [] ∧
    (findStreams ⟨[], []⟩ 7).2 = ⟨[], [(7, [])]⟩ ∧
    saveStream ⟨[], [(7, [])]⟩ "projA" [7] = ⟨[("projA", [7])], [(7, [])]⟩ ∧
    (findStreams ⟨[("projA", [7])], [(7, [])]⟩ 7).1 = [] ∧
    (findStreams ⟨[("projA", [7])], [(7, [])]⟩ 7).1 ≠ ["projA"] := by
  decide

/-- C8, amended: `findStreams` performs negative caching — an empty lookup
result is cached and, while the entry lives (no TTL expiry or eviction,
which the model leaves out), it is served as is, so `saveStream` does not
become visible for an already-cached type; only a type that misses the
cache sees the table that `saveStream` updated, and the miss result (empty
or not) is cached. -/
theorem findStreams_negative_caching (st : ConfigState) (t : Nat)
    (id : String) (evs : List Nat) :
    (∀ l, cacheGet st.cache t = some l →
        (findStreams (saveStream st id evs) t).1 = l) ∧
    (cacheGet st.cache t = none →
        (findStreams st t).1 =
          (st.table.filter fun p => p.2.contains t).map (·.1) ∧
        cacheGet (findStreams st t).2.cache t =
          some ((st.table.filter fun p => p.2.contains t).map (·.1))) := by
  constructor
  · intro l hl
    have hcache : (saveStream st id evs).cache = st.cache := rfl
    simp [findStreams, hcache, hl]
  · intro hn
    simp [findStreams, hn, cacheGet_cacheSet_self]

/-- C8, witness for the amended statement: type 9 cached as empty, a new
registration for 9 is invisible; type 4 misses the cache and sees the
table. -/
theorem findStreams_negative_caching_witness :
    cacheGet (⟨[], [(9, [])]⟩ : ConfigState).cache 9 = some [] ∧
    (findStreams (saveStream ⟨[], [(9, [])]⟩ "p" [9]) 9).1 = [] ∧
    cacheGet (⟨[("q", [4])], []⟩ : ConfigState).cache 4 = none ∧
    ((findStreams ⟨[("q", [4])], []⟩ 4).1 =
        ((⟨[("q", [4])], []⟩ : ConfigState).table.filter
          fun p => p.2.contains 4).map (·.1) ∧
      cacheGet (findStreams ⟨[("q", [4])], []⟩ 4).2.cache 4 =
        some (((⟨[("q", [4])], []⟩ : ConfigState).table.filter
          fun p => p.2.contains 4).map (·.1))) :=
  ⟨rfl,
   (findStreams_negative_caching ⟨[], [(9, [])]⟩ 9 "p" [9]).1 [] rfl,
   rfl,
   (findStreams_negative_caching ⟨[("q", [4])], []⟩ 4 "p" []).2 rfl⟩

/-- C10. `Projection.start` is not re-entrant: a successful start happens
only from the unstarted state, registers the projection's distinct handler
event types (unless `disableSaveStream`) and subscribes once; with the
subscriber installed, every further `start` throws `already started`,
performing no registration and no subscription. -/
theorem projectionStart_not_reentrant (p : ProjectionState) (projId : String)
    (handlerTypes : List Nat) (d : Bool) (p' : ProjectionState)
    (effs : List StartEffect)
    (h : projectionStart p projId handlerTypes d = (p', effs, none)) :
    p.started = false ∧ p'.started = true ∧
    effs = (if d then []
        else [.saveStreamCall projId (jsSetDedup handlerTypes)]) ++
      [.subscribeCall projId] ∧
    ∀ handlerTypes' d', projectionStart p' projId handlerTypes' d' =
      (p', [], some "already started") := by
  unfold projectionStart at h
  by_cases hp : p.started = true
  · rw [if_pos hp] at h
    simp at h
  · rw [if_neg hp] at h
    cases h
    refine ⟨by simpa using hp, rfl, rfl, ?_⟩
    intro handlerTypes' d'
    rfl

/-- C10, witness: a fresh projection starts once; the second call throws
with no effects. -/
theorem projectionStart_not_reentrant_witness :
    projectionStart ⟨false⟩ "proj" [5, 5, 6] false =
      (⟨true⟩, [.saveStreamCall "proj" [5, 6], .subscribeCall "proj"], none) ∧
    ((⟨false⟩ : ProjectionState).started = false ∧
      (⟨true⟩ : ProjectionState).started = true ∧
      [StartEffect.saveStreamCall "proj" [5, 6],
        StartEffect.subscribeCall "proj"] =
        (if false then []
          else [StartEffect.saveStreamCall "proj" (jsSetDedup [5, 5, 6])]) ++
          [StartEffect.subscribeCall "proj"] ∧
      ∀ handlerTypes' d', projectionStart ⟨true⟩ "proj" handlerTypes' d' =
        (⟨true⟩, [], some "already started")) :=
  ⟨by decide,
   projectionStart_not_reentrant ⟨false⟩ "proj" [5, 5, 6] false ⟨true⟩ _
     (by decide)⟩

/-- Supported value kinds survive the joser tagged encoding. -/
theorem joserVal_roundtrip (v : Kafka.JoVal) :
    Kafka.joserDeserializeVal (Kafka.joserSerializeVal v) = v := by
  cases v with
  | bytes data =>
      simp only [Kafka.joserSerializeVal, Kafka.joserDeserializeVal,
        List.map_map]
      congr 1
      induction data with
      | nil => rfl
      | cons a rest ih => simpa using ih
  | _ => simp [Kafka.joserSerializeVal, Kafka.joserDeserializeVal]

/-- Records of supported values survive `joser.serialize` plus
`joser.deserialize`. -/
theorem joserDoc_roundtrip (d : Kafka.JoDoc) :
    Kafka.joserDeserializeDoc (Kafka.joserSerializeDoc d) = d := by
  simp only [Kafka.joserSerializeDoc, Kafka.joserDeserializeDoc,
    List.map_map]
  exact (List.map_congr_left fun p _ => by
      cases p with
      | mk k v => simp [Function.comp, joserVal_roundtrip]).trans
    (List.map_id _)

/-- C9. The wire codec round-trips events up to seconds truncation of the
timestamp: with `type`, `aggregate.version` and the second count inside
u32 range, the round-tripped event equals the original except that the
timestamp is truncated to whole seconds; for a timestamp on a whole second
the round trip is the identity. -/
theorem kafka_serialize_roundtrip (e : Kafka.KafkaEvent)
    (ht : e.type < 2 ^ 32) (hv : e.aggregate_version < 2 ^ 32)
    (hts : e.timestamp / 1000 < 2 ^ 32) :
    Kafka.deserialize (Kafka.serialize e) =
      { e with timestamp := e.timestamp / 1000 * 1000 } ∧
    (e.timestamp % 1000 = 0 →
      Kafka.deserialize (Kafka.serialize e) = e) := by
  have main : Kafka.deserialize (Kafka.serialize e) =
      { e with timestamp := e.timestamp / 1000 * 1000 } := by
    cases e with
    | mk id ty aid av body meta tsp =>
        have h1 : ty % 2 ^ 32 = ty := Nat.mod_eq_of_lt ht
        have h2 : av % 2 ^ 32 = av := Nat.mod_eq_of_lt hv
        have h3 : tsp / 1000 % 2 ^ 32 = tsp / 1000 := Nat.mod_eq_of_lt hts
        cases body with
        | none =>
            simp [Kafka.serialize, Kafka.deserialize, h1, h2, h3,
              joserDoc_roundtrip]
            exact ⟨ht, hv, hts⟩
        | some b =>
            simp [Kafka.serialize, Kafka.deserialize, h1, h2, h3,
              joserDoc_roundtrip]
            exact ⟨ht, hv, hts⟩
  refine ⟨main, fun hmod => main.trans ?_⟩
  cases e with
  | mk id ty aid av body meta tsp =>
      simp_all [Nat.div_mul_cancel (Nat.dvd_of_mod_eq_zero hmod)]

/-- C9, witness: a concrete event with number, byte-string and timestamp
values and a whole-second timestamp round-trips exactly. -/
theorem kafka_serialize_roundtrip_witness :
    (⟨[1], 3, [2], 1, some [("k", Kafka.JoVal.num 5)],
        [("m", Kafka.JoVal.bytes [9]), ("c", Kafka.JoVal.date 1234)],
        2000⟩ : Kafka.KafkaEvent).type < 2 ^ 32 ∧
    (⟨[1], 3, [2], 1, some [("k", Kafka.JoVal.num 5)],
        [("m", Kafka.JoVal.bytes [9]), ("c", Kafka.JoVal.date 1234)],
        2000⟩ : Kafka.KafkaEvent).aggregate_version < 2 ^ 32 ∧
    (⟨[1], 3, [2], 1, some [("k", Kafka.JoVal.num 5)],
        [("m", Kafka.JoVal.bytes [9]), ("c", Kafka.JoVal.date 1234)],
        2000⟩ : Kafka.KafkaEvent).timestamp / 1000 < 2 ^ 32 ∧
    (Kafka.deserialize (Kafka.serialize
        ⟨[1], 3, [2], 1, some [("k", Kafka.JoVal.num 5)],
          [("m", Kafka.JoVal.bytes [9]), ("c", Kafka.JoVal.date 1234)],
          2000⟩) =
      { (⟨[1], 3, [2], 1, some [("k", Kafka.JoVal.num 5)],
          [("m", Kafka.JoVal.bytes [9]), ("c", Kafka.JoVal.date 1234)],
          2000⟩ : Kafka.KafkaEvent) with timestamp := 2000 / 1000 * 1000 } ∧
      ((⟨[1], 3, [2], 1, some [("k", Kafka.JoVal.num 5)],
          [("m", Kafka.JoVal.bytes [9]), ("c", Kafka.JoVal.date 1234)],
          2000⟩ : Kafka.KafkaEvent).timestamp % 1000 = 0 →
        Kafka.deserialize (Kafka.serialize
          ⟨[1], 3, [2], 1, some [("k", Kafka.JoVal.num 5)],
            [("m", Kafka.JoVal.bytes [9]), ("c", Kafka.JoVal.date 1234)],
            2000⟩) =
          ⟨[1], 3, [2], 1, some [("k", Kafka.JoVal.num 5)],
            [("m", Kafka.JoVal.bytes [9]), ("c", Kafka.JoVal.date 1234)],
            2000⟩)) :=
  ⟨by decide, by decide, by decide,
   kafka_serialize_roundtrip _ (by decide) (by decide) (by decide)⟩

/-- A successful event-row insert appends exactly the given row. -/
theorem insertEventRow_ok (rows rows' : List EventRow) (row : EventRow)
    (h : insertEventRow rows row = .ok rows') : rows' = rows ++ [row] := by
  unfold insertEventRow at h
  by_cases h1 : rows.any (fun r => r.eventId == row.eventId) = true
  · rw [if_pos h1] at h
    exact absurd h (by simp)
  · rw [if_neg h1] at h
    by_cases h2 : rows.any (fun r =>
        r.aggregate_id == row.aggregate_id &&
          r.aggregate_version == row.aggregate_version) = true
    · rw [if_pos h2] at h
      exact absurd h (by simp)
    · rw [if_neg h2] at h
      cases h
      rfl

/-- A successful insert loop appends exactly the batch rows. -/
theorem insertEventRows_ok (events : List EventInput)
    (rows rows' : List EventRow) (aggId version ts : Nat) (bm : Option Nat)
    (h : insertEventRows rows aggId version ts events bm = .ok rows') :
    rows' = rows ++ eventRowsOf aggId version ts events bm := by
  induction events generalizing rows version with
  | nil =>
      unfold insertEventRows at h
      cases h
      simp [eventRowsOf]
  | cons e rest ih =>
      unfold insertEventRows at h
      cases hrow : insertEventRow rows
          ⟨e.eventId, e.type, aggId, version, e.body,
            mergeMeta e.meta bm, ts, false⟩ with
      | error err => rw [hrow] at h; exact absurd h (by simp)
      | ok rows1 =>
          rw [hrow] at h
          have h1 := insertEventRow_ok rows rows1 _ hrow
          have h2 := ih rows1 (version + 1) h
          rw [h2, h1]
          simp [eventRowsOf]

/-- A successful `backOff` run returns the value of one of its attempts. -/
theorem backOffRun_ok {α : Type} (attempt : Nat → Except SaveError α)
    (retryP : SaveError → Bool) (n : Nat) :
    ∀ (i : Nat) (a : α), backOffRun attempt retryP n i = .ok a →
      ∃ j, attempt j = .ok a := by
  induction n with
  | zero => intro i a h; simp [backOffRun] at h
  | succ m ihm =>
      cases m with
      | zero => intro i a h; exact ⟨i, h⟩
      | succ k =>
          intro i a h
          rw [backOffRun] at h
          cases hatt : attempt i with
          | ok b => simp only [hatt] at h; cases h; exact ⟨i, hatt⟩
          | error e =>
              simp only [hatt] at h
              by_cases hre : retryP e = true
              · rw [if_pos hre] at h
                exact ihm (i + 1) a h
              · rw [if_neg hre] at h
                exact absurd h (by simp)

/-- A first-attempt error that the retry predicate rejects surfaces as the
result of the whole `backOff` run. -/
theorem backOffRun_no_retry {α : Type} (attempt : Nat → Except SaveError α)
    (retryP : SaveError → Bool) (n i : Nat) (e : SaveError)
    (h1 : attempt i = .error e) (h2 : retryP e = false) (hn : 1 ≤ n) :
    backOffRun attempt retryP n i = .error e := by
  cases n with
  | zero => omega
  | succ m =>
      cases m with
      | zero => simpa [backOffRun] using h1
      | succ k => rw [backOffRun, h1]; simp [h2]

/-- A retryable error consumes one attempt and the run continues. -/
theorem backOffRun_retry_step {α : Type} (attempt : Nat → Except SaveError α)
    (retryP : SaveError → Bool) (n i : Nat) (e : SaveError)
    (h1 : attempt i = .error e) (h2 : retryP e = true) :
    backOffRun attempt retryP (n + 2) i =
      backOffRun attempt retryP (n + 1) (i + 1) := by
  rw [backOffRun, h1]
  simp [h2]

/-- Starting at attempt `i + 1` is running the shifted attempt function. -/
theorem backOffRun_shift {α : Type} (attempt : Nat → Except SaveError α)
    (retryP : SaveError → Bool) (n : Nat) :
    ∀ i, backOffRun attempt retryP n (i + 1) =
      backOffRun (fun j => attempt (j + 1)) retryP n i := by
  induction n with
  | zero => intro i; rfl
  | succ m ihm =>
      cases m with
      | zero => intro i; rfl
      | succ k =>
          intro i
          rw [backOffRun, backOffRun]
          cases hatt : attempt (i + 1) with
          | ok b => simp only [hatt]
          | error e =>
              simp only [hatt]
              by_cases hre : retryP e = true
              · rw [if_pos hre, if_pos hre]
                exact ihm (i + 1)
              · rw [if_neg hre, if_neg hre]

/-- A successful aggregate-record insert requires a fresh key and appends
the record. -/
theorem insertAggregate_ok_spec (aggs l : List (Nat × AggregateRecord))
    (id : Nat) (rec : AggregateRecord)
    (h : insertAggregate aggs id rec = .ok l) :
    aggGet aggs id = none ∧ l = aggs ++ [(id, rec)] := by
  unfold insertAggregate at h
  by_cases hs : (aggGet aggs id).isSome = true
  · rw [if_pos hs] at h; exact absurd h (by simp)
  · rw [if_neg hs] at h
    cases h
    exact ⟨Option.not_isSome_iff_eq_none.mp (by simpa using hs), rfl⟩

/-- A successful `saveEvents` passed the version assertion and one of its
attempts ran the transaction to completion on the unchanged store. -/
theorem saveEvents_ok_spec (s s' : Store) (aggId version ts : Nat)
    (evs : List EventInput) (bm : Option Nat) (faults : List (Option String))
    (n : Nat) (h : saveEvents s aggId version ts evs bm faults n = .ok s') :
    1 ≤ version ∧ saveEventsAttempt s aggId version ts evs bm = .ok s' := by
  unfold saveEvents at h
  by_cases hv : version > 0
  · rw [if_pos hv] at h
    obtain ⟨j, hj⟩ := backOffRun_ok _ _ n 0 s' h
    cases hf : faults.getD j none with
    | some code => simp only [hf] at hj; exact absurd hj (by simp)
    | none => simp only [hf] at hj; exact ⟨hv, hj⟩
  · rw [if_neg hv] at h; exact absurd h (by simp)

/-- What a committed `saveEvents` transaction did: the aggregate was not
final; the batch rows were appended whole; snapshots and checkpoints are
untouched; and the aggregate record was either created (version 1, fresh
key) or updated from `version - 1` (the `rowCount` guard matched). -/
theorem saveEventsAttempt_ok_spec (s s' : Store) (aggId version ts : Nat)
    (evs : List EventInput) (bm : Option Nat)
    (h : saveEventsAttempt s aggId version ts evs bm = .ok s') :
    (aggGet s.aggregates aggId).elim false (·.final) = false ∧
    s'.events = s.events ++ eventRowsOf aggId version ts evs bm ∧
    s'.snapshots = s.snapshots ∧
    s'.checkpoints = s.checkpoints ∧
    ((version = 1 ∧ aggGet s.aggregates aggId = none ∧
        s'.aggregates = s.aggregates ++ [(aggId, ⟨evs.length, ts, false⟩)]) ∨
      (version ≠ 1 ∧
        (s.aggregates.countP fun p =>
            p.1 == aggId && p.2.version == version - 1 && !p.2.final) ≠ 0 ∧
        s'.aggregates = (updateAggregate s.aggregates aggId
            (version + evs.length - 1) ts (version - 1)).1)) := by
  unfold saveEventsAttempt at h
  by_cases hfin : (aggGet s.aggregates aggId).elim false (·.final) = true
  · rw [if_pos hfin] at h; exact absurd h (by simp)
  · rw [if_neg hfin] at h
    refine ⟨by simpa using hfin, ?_⟩
    by_cases hv1 : (version == 1) = true
    · rw [if_pos hv1] at h
      cases hins : insertAggregate s.aggregates aggId
          ⟨evs.length, ts, false⟩ with
      | error e =>
          simp only [hins] at h
          split at h <;>
            first
            | exact Except.noConfusion h
            | (rename_i heq
               split at heq <;> exact Except.noConfusion heq)
      | ok l =>
          simp only [hins] at h
          cases hrows : insertEventRows s.events aggId version ts evs bm with
          | error e =>
              rw [hrows] at h
              exact absurd h (by simp)
          | ok rows =>
              simp only [hrows] at h
              cases h
              obtain ⟨hnone, hl⟩ := insertAggregate_ok_spec _ _ _ _ hins
              exact ⟨insertEventRows_ok _ _ _ _ _ _ _ hrows, rfl, rfl,
                Or.inl ⟨by simpa using hv1, hnone, hl⟩⟩
    · rw [if_neg hv1] at h
      by_cases hcnt : ((updateAggregate s.aggregates aggId
          (version + evs.length - 1) ts (version - 1)).2 == 0) = true
      · rw [if_pos hcnt] at h
        exact absurd h (by simp)
      · rw [if_neg hcnt] at h
        have hcnt' : (s.aggregates.countP fun p =>
            p.1 == aggId && p.2.version == version - 1 && !p.2.final) ≠ 0 := by
          intro h0
          exact hcnt (by simp [updateAggregate, h0])
        cases hrows : insertEventRows s.events aggId version ts evs bm with
        | error e =>
            rw [hrows] at h
            exact absurd h (by simp)
        | ok rows =>
            simp only [hrows] at h
            cases h
            exact ⟨insertEventRows_ok _ _ _ _ _ _ _ hrows, rfl, rfl,
              Or.inr ⟨by simpa using hv1, hcnt', rfl⟩⟩

/-- C3. `saveEvents` is atomic: a call with a non-empty batch either
surfaces an error with the observed store unchanged (every attempt rolled
back), or commits the whole batch — all event rows appended in order plus
the aggregate-record creation (version 1) or version update — touching
nothing else. -/
theorem saveEvents_atomic (s : Store) (aggId version ts : Nat)
    (evs : List EventInput) (bm : Option Nat) (faults : List (Option String))
    (n : Nat) (hne : evs ≠ []) :
    (∃ e, saveEvents s aggId version ts evs bm faults n = .error e ∧
        saveEventsRun s aggId version ts evs bm faults n = s) ∨
    (∃ s', saveEvents s aggId version ts evs bm faults n = .ok s' ∧
        saveEventsRun s aggId version ts evs bm faults n = s' ∧
        s'.events = s.events ++ eventRowsOf aggId version ts evs bm ∧
        s'.snapshots = s.snapshots ∧
        s'.checkpoints = s.checkpoints ∧
        ((version = 1 ∧
            s'.aggregates =
              s.aggregates ++ [(aggId, ⟨evs.length, ts, false⟩)]) ∨
          (2 ≤ version ∧
            s'.aggregates = (updateAggregate s.aggregates aggId
              (version + evs.length - 1) ts (version - 1)).1))) := by
  cases hres : saveEvents s aggId version ts evs bm faults n with
  | error e => exact Or.inl ⟨e, rfl, by simp [saveEventsRun, hres]⟩
  | ok s' =>
      obtain ⟨hv, hatt⟩ := saveEvents_ok_spec _ _ _ _ _ _ _ _ _ hres
      obtain ⟨hfin, hev, hsnap, hchk, hagg⟩ :=
        saveEventsAttempt_ok_spec _ _ _ _ _ _ _ hatt
      refine Or.inr ⟨s', rfl, by simp [saveEventsRun, hres], hev, hsnap,
        hchk, ?_⟩
      rcases hagg with ⟨h1, _, h3⟩ | ⟨h1, _, h3⟩
      · exact Or.inl ⟨h1, h3⟩
      · exact Or.inr ⟨by omega, h3⟩

/-- C3, witness: a one-event batch at version 1 on the empty store. -/
theorem saveEvents_atomic_witness :
    ([⟨10, 3, none, 0⟩] : List EventInput) ≠ [] ∧
    ((∃ e, saveEvents Store.empty 1 1 0 [⟨10, 3, none, 0⟩] none [] 20 =
          .error e ∧
        saveEventsRun Store.empty 1 1 0 [⟨10, 3, none, 0⟩] none [] 20 =
          Store.empty) ∨
      (∃ s', saveEvents Store.empty 1 1 0 [⟨10, 3, none, 0⟩] none [] 20 =
          .ok s' ∧
        saveEventsRun Store.empty 1 1 0 [⟨10, 3, none, 0⟩] none [] 20 = s' ∧
        s'.events = Store.empty.events ++
          eventRowsOf 1 1 0 [⟨10, 3, none, 0⟩] none ∧
        s'.snapshots = Store.empty.snapshots ∧
        s'.checkpoints = Store.empty.checkpoints ∧
        ((1 = 1 ∧
            s'.aggregates = Store.empty.aggregates ++
              [(1, ⟨([⟨10, 3, none, 0⟩] : List EventInput).length, 0,
                false⟩)]) ∨
          (2 ≤ 1 ∧
            s'.aggregates = (updateAggregate Store.empty.aggregates 1
              (1 + ([⟨10, 3, none, 0⟩] : List EventInput).length - 1) 0
              (1 - 1)).1)))) :=
  ⟨by decide,
   saveEvents_atomic Store.empty 1 1 0 [⟨10, 3, none, 0⟩] none [] 20
     (by decide)⟩

/-- A final aggregate record fails the transaction with
`AggregateIsFinalError`. -/
theorem saveEventsAttempt_final (s : Store) (aggId version ts : Nat)
    (evs : List EventInput) (bm : Option Nat)
    (hfin : (aggGet s.aggregates aggId).elim false (·.final) = true) :
    saveEventsAttempt s aggId version ts evs bm =
      .error (.aggregateIsFinal aggId) := by
  unfold saveEventsAttempt
  rw [if_pos hfin]

/-- With version 1 and an existing record, the aggregates insert hits the
unique violation, which the transaction reports as a version conflict. -/
theorem saveEventsAttempt_conflict_v1 (s : Store) (aggId ts : Nat)
    (evs : List EventInput) (bm : Option Nat)
    (hfin : (aggGet s.aggregates aggId).elim false (·.final) = false)
    (hsome : (aggGet s.aggregates aggId).isSome = true) :
    saveEventsAttempt s aggId 1 ts evs bm =
      .error (.aggregateVersionConflict aggId 1) := by
  simp [saveEventsAttempt, hfin, insertAggregate, hsome]

/-- With a version above 1 and no record at `version - 1` that is not
final, the `UPDATE` matches no row and the transaction reports a version
conflict. -/
theorem saveEventsAttempt_conflict_update (s : Store) (aggId version ts : Nat)
    (evs : List EventInput) (bm : Option Nat)
    (hfin : (aggGet s.aggregates aggId).elim false (·.final) = false)
    (hv1 : version ≠ 1)
    (hcnt : (s.aggregates.countP fun p =>
        p.1 == aggId && p.2.version == version - 1 && !p.2.final) = 0) :
    saveEventsAttempt s aggId version ts evs bm =
      .error (.aggregateVersionConflict aggId version) := by
  have hb : (version == 1) = false := by simpa using hv1
  simp [saveEventsAttempt, hfin, hb, updateAggregate, hcnt]

/-- An error of the first attempt that the retry predicate rejects is the
result of the whole `saveEvents` call. -/
theorem saveEvents_first_attempt_error (s : Store) (aggId version ts : Nat)
    (evs : List EventInput) (bm : Option Nat) (faults : List (Option String))
    (n : Nat) (e : SaveError)
    (he : saveEventsAttempt s aggId version ts evs bm = .error e)
    (hre : retrySaveCode e = false)
    (hf0 : faults.getD 0 none = none) (hn : 1 ≤ n) (hv : 1 ≤ version) :
    saveEvents s aggId version ts evs bm faults n = .error e := by
  unfold saveEvents
  rw [if_pos (show version > 0 from hv)]
  exact backOffRun_no_retry _ _ _ _ _ (by simp only [hf0]; exact he) hre hn

/-- With distinct record keys, a member of the aggregates table is what
lookup of its key returns. -/
theorem aggGet_of_mem_nodup (aggs : List (Nat × AggregateRecord))
    (id : Nat) (rec : AggregateRecord)
    (hnd : (aggs.map Prod.fst).Nodup) (hm : (id, rec) ∈ aggs) :
    aggGet aggs id = some rec := by
  induction aggs with
  | nil => cases hm
  | cons q rest ih =>
      rw [List.map_cons, List.nodup_cons] at hnd
      cases hm with
      | head => simp [aggGet, List.find?]
      | tail _ hm' =>
          have hq : (q.1 == id) = false := by
            refine beq_eq_false_iff_ne.mpr fun hqe => hnd.1 ?_
            rw [hqe]
            exact List.mem_map.mpr ⟨(id, rec), hm', rfl⟩
          have := ih hnd.2 hm'
          simpa [aggGet, List.find?, hq] using this

/-- C2. `saveEvents` with version `v ≥ 1`: a final aggregate fails with the
finalized error; a log that does not end at `v - 1` fails with
`AggregateVersionConflict(id, v)`; only the classified transient set
(serialization failure `40001`, deadlock `40P01`) is retried — consuming
one of the `numOfAttempts` — with exponential backoff whose defaults are
100 ms starting delay, 1600 ms cap and 20 attempts, while every other
error surfaces from the first attempt without retry. -/
theorem saveEvents_failure_modes :
    (retryStartingDelayDefault = 100 ∧ retryMaxDelayDefault = 1600 ∧
      retryMaxAttemptsDefault = 20 ∧
      ∀ n, backOffDelay retryStartingDelayDefault retryMaxDelayDefault n =
        min (100 * 2 ^ n) 1600) ∧
    (∀ e, retrySaveCode e = true ↔
        e = .pg "40001" ∨ e = .pg "40P01") ∧
    (∀ (s : Store) (aggId version ts : Nat) (evs : List EventInput)
        (bm : Option Nat) (faults : List (Option String)) (n : Nat),
      1 ≤ version → 1 ≤ n → faults.getD 0 none = none →
        (((aggGet s.aggregates aggId).elim false (·.final) = true →
            saveEvents s aggId version ts evs bm faults n =
              .error (.aggregateIsFinal aggId)) ∧
          (StoreInv s →
            (aggGet s.aggregates aggId).elim false (·.final) = false →
            ¬ logEndsAt s aggId (version - 1) →
            saveEvents s aggId version ts evs bm faults n =
              .error (.aggregateVersionConflict aggId version)))) ∧
    (∀ (s : Store) (aggId version ts : Nat) (evs : List EventInput)
        (bm : Option Nat) (faults : List (Option String)) (n : Nat)
        (c : String),
      1 ≤ version → 1 ≤ n → faults.getD 0 none = some c →
        retrySaveCode (.pg c) = false →
        saveEvents s aggId version ts evs bm faults n = .error (.pg c)) ∧
    (∀ (s : Store) (aggId version ts : Nat) (evs : List EventInput)
        (bm : Option Nat) (rest : List (Option String)) (n : Nat)
        (c : String),
      1 ≤ version → retrySaveCode (.pg c) = true →
        saveEvents s aggId version ts evs bm (some c :: rest) (n + 2) =
          saveEvents s aggId version ts evs bm rest (n + 1)) := by
  refine ⟨⟨rfl, rfl, rfl, fun n => rfl⟩, ?_, ?_, ?_, ?_⟩
  · intro e
    cases e with
    | pg c => simp [retrySaveCode]
    | aggregateIsFinal id => simp [retrySaveCode]
    | aggregateVersionConflict id v => simp [retrySaveCode]
    | assertion m => simp [retrySaveCode]
  · intro s aggId version ts evs bm faults n hv hn hf0
    constructor
    · intro hfin
      exact saveEvents_first_attempt_error _ _ _ _ _ _ _ _ _
        (saveEventsAttempt_final _ _ _ _ _ _ hfin) rfl hf0 hn hv
    · intro hinv hfin hne
      by_cases hv1 : version = 1
      · subst hv1
        have hsome : (aggGet s.aggregates aggId).isSome = true := by
          cases hget : aggGet s.aggregates aggId with
          | none =>
              exfalso
              apply hne
              have := hinv.2 aggId
              simpa [aggVersionD, hget] using this
          | some rec => rfl
        exact saveEvents_first_attempt_error _ _ _ _ _ _ _ _ _
          (saveEventsAttempt_conflict_v1 _ _ _ _ _ hfin hsome) rfl hf0 hn hv
      · have hcnt : (s.aggregates.countP fun p =>
            p.1 == aggId && p.2.version == version - 1 && !p.2.final) = 0 := by
          by_contra hc
          have hex : ∃ p ∈ s.aggregates,
              (p.1 == aggId && p.2.version == version - 1 && !p.2.final)
                = true := by
            by_contra hall
            push_neg at hall
            exact hc (List.countP_eq_zero.mpr fun p hp =>
              by simpa using hall p hp)
          obtain ⟨⟨pid, prec⟩, hp, hpred⟩ := hex
          simp only [Bool.and_eq_true, beq_iff_eq, Bool.not_eq_true'] at hpred
          obtain ⟨⟨hpid, hpver⟩, hpfin⟩ := hpred
          subst hpid
          have hget := aggGet_of_mem_nodup _ _ _ hinv.1 hp
          apply hne
          have := hinv.2 pid
          rw [aggVersionD, hget] at this
          simpa [hpver] using this
        exact saveEvents_first_attempt_error _ _ _ _ _ _ _ _ _
          (saveEventsAttempt_conflict_update _ _ _ _ _ _ hfin hv1 hcnt)
          rfl hf0 hn hv
  · intro s aggId version ts evs bm faults n c hv hn hfc hre
    unfold saveEvents
    rw [if_pos (show version > 0 from hv)]
    exact backOffRun_no_retry _ _ _ _ _ (by simp only [hfc]) hre hn
  · intro s aggId version ts evs bm rest n c hv hre
    unfold saveEvents
    rw [if_pos (show version > 0 from hv), if_pos (show version > 0 from hv)]
    rw [backOffRun_retry_step _ _ _ _ _ (by simp) hre]
    rw [backOffRun_shift]
    refine congrArg (fun f => backOffRun f retrySaveCode (n + 1) 0) ?_
    funext j
    rw [List.getD_cons_succ]

/-- C2, witness: on the empty store (whose log for id 1 does not end at
version 1), a write claiming version 2 fails with the version conflict. -/
theorem saveEvents_failure_modes_witness :
    (1 : Nat) ≤ 2 ∧ (1 : Nat) ≤ 20 ∧
    ([] : List (Option String)).getD 0 none = none ∧
    StoreInv Store.empty ∧
    (aggGet Store.empty.aggregates 1).elim false (·.final) = false ∧
    ¬ logEndsAt Store.empty 1 (2 - 1) ∧
    saveEvents Store.empty 1 2 0 [] none [] 20 =
      .error (.aggregateVersionConflict 1 2) :=
  ⟨by decide, by decide, rfl, ⟨List.nodup_nil, fun id => rfl⟩, rfl,
   by decide,
   (saveEvents_failure_modes.2.2.1 Store.empty 1 2 0 [] none [] 20
       (by decide) (by decide) rfl).2 ⟨List.nodup_nil, fun id => rfl⟩ rfl
     (by decide)⟩

/-- Batch rows carry the consecutive versions starting at the claimed
one. -/
theorem eventRowsOf_versions (evs : List EventInput) (aggId version ts : Nat)
    (bm : Option Nat) :
    (eventRowsOf aggId version ts evs bm).map (·.aggregate_version) =
      List.range' version evs.length := by
  induction evs generalizing version with
  | nil => rfl
  | cons e rest ih =>
      simp only [eventRowsOf, List.map_cons, List.length_cons,
        List.range'_succ]
      rw [ih]

/-- Every batch row belongs to the batch's aggregate. -/
theorem eventRowsOf_aggregate_id (evs : List EventInput)
    (aggId version ts : Nat) (bm : Option Nat) (r : EventRow)
    (hr : r ∈ eventRowsOf aggId version ts evs bm) :
    r.aggregate_id = aggId := by
  induction evs generalizing version with
  | nil => cases hr
  | cons e rest ih =>
      cases hr with
      | head => rfl
      | tail _ h => exact ih (version + 1) h

/-- Filtering the batch rows for the batch's own aggregate keeps them
all. -/
theorem eventRowsOf_filter_self (evs : List EventInput)
    (aggId version ts : Nat) (bm : Option Nat) :
    (eventRowsOf aggId version ts evs bm).filter
        (fun r => r.aggregate_id == aggId) =
      eventRowsOf aggId version ts evs bm :=
  List.filter_eq_self.mpr fun r hr => by
    simp [eventRowsOf_aggregate_id evs aggId version ts bm r hr]

/-- Filtering the batch rows for another aggregate drops them all. -/
theorem eventRowsOf_filter_ne (evs : List EventInput)
    (aggId version ts id : Nat) (bm : Option Nat) (hne : id ≠ aggId) :
    (eventRowsOf aggId version ts evs bm).filter
        (fun r => r.aggregate_id == id) = [] :=
  List.filter_eq_nil_iff.mpr fun r hr => by
    simp [eventRowsOf_aggregate_id evs aggId version ts bm r hr,
      Ne.symm hne]

/-- An absent key means no table entry carries it. -/
theorem aggGet_eq_none_iff (aggs : List (Nat × AggregateRecord)) (id : Nat) :
    aggGet aggs id = none ↔ ∀ p ∈ aggs, p.1 ≠ id := by
  unfold aggGet
  rw [Option.map_eq_none', List.find?_eq_none]
  constructor
  · intro h p hp
    simpa using h p hp
  · intro h p hp
    simpa using h p hp

/-- Appending a row with a new key leaves other lookups unchanged. -/
theorem aggGet_append_ne (aggs : List (Nat × AggregateRecord))
    (i j : Nat) (rec : AggregateRecord) (hne : i ≠ j) :
    aggGet (aggs ++ [(j, rec)]) i = aggGet aggs i := by
  unfold aggGet
  rw [List.find?_append]
  cases hf : aggs.find? (fun p => p.1 == i) with
  | some q => rfl
  | none => simp [List.find?, beq_eq_false_iff_ne.mpr (Ne.symm hne)]

/-- Appending a row with a fresh key makes lookup return it. -/
theorem aggGet_append_self (aggs : List (Nat × AggregateRecord))
    (j : Nat) (rec : AggregateRecord) (h : aggGet aggs j = none) :
    aggGet (aggs ++ [(j, rec)]) j = some rec := by
  unfold aggGet
  rw [List.find?_append]
  unfold aggGet at h
  rw [Option.map_eq_none'] at h
  rw [h]
  simp [List.find?]

/-- A non-zero `rowCount` of the version-guarded `UPDATE` exhibits a
matching record. -/
theorem exists_record_of_countP_ne_zero (aggs : List (Nat × AggregateRecord))
    (aggId rv : Nat)
    (hc : (aggs.countP fun p =>
        p.1 == aggId && p.2.version == rv && !p.2.final) ≠ 0) :
    ∃ rec, (aggId, rec) ∈ aggs ∧ rec.version = rv ∧ rec.final = false := by
  have hex : ∃ p ∈ aggs,
      (p.1 == aggId && p.2.version == rv && !p.2.final) = true := by
    by_contra hall
    push_neg at hall
    exact hc (List.countP_eq_zero.mpr fun p hp => by simpa using hall p hp)
  obtain ⟨⟨pid, prec⟩, hp, hpred⟩ := hex
  simp only [Bool.and_eq_true, beq_iff_eq, Bool.not_eq_true'] at hpred
  obtain ⟨⟨hpid, hpver⟩, hpfin⟩ := hpred
  subst hpid
  exact ⟨prec, hp, hpver, hpfin⟩

/-- The version-guarded `UPDATE` does not change the set of record keys. -/
theorem updateAggregate_keys (l : List (Nat × AggregateRecord))
    (j nv ts rv : Nat) :
    ((updateAggregate l j nv ts rv).1).map Prod.fst = l.map Prod.fst := by
  simp only [updateAggregate, List.map_map]
  exact List.map_congr_left fun p _ => by
    by_cases h : (p.1 == j && p.2.version == rv && !p.2.final) = true <;>
      simp [Function.comp, h]

/-- The version-guarded `UPDATE` leaves other aggregates' records alone. -/
theorem aggGet_updateAggregate_ne (l : List (Nat × AggregateRecord))
    (i j nv ts rv : Nat) (hne : i ≠ j) :
    aggGet (updateAggregate l j nv ts rv).1 i = aggGet l i := by
  induction l with
  | nil => rfl
  | cons q rest ih =>
      by_cases hc : (q.1 == j && q.2.version == rv && !q.2.final) = true
      · have hqj : q.1 = j := by
          simp only [Bool.and_eq_true, beq_iff_eq] at hc
          exact hc.1.1
        have hq : (q.1 == i) = false :=
          beq_eq_false_iff_ne.mpr (by omega)
        simpa [updateAggregate, aggGet, List.find?, hc, hq] using ih
      · by_cases hq : (q.1 == i) = true
        · simp [updateAggregate, aggGet, List.find?, hc, hq]
        · simpa [updateAggregate, aggGet, List.find?, hc, hq] using ih

/-- When the looked-up record matches the `UPDATE` guard, its version and
timestamp are overwritten. -/
theorem aggGet_updateAggregate_self (l : List (Nat × AggregateRecord))
    (j nv ts rv : Nat) (rec : AggregateRecord)
    (hget : aggGet l j = some rec) (hv : rec.version = rv)
    (hf : rec.final = false) :
    aggGet (updateAggregate l j nv ts rv).1 j =
      some { rec with version := nv, timestamp := ts } := by
  induction l with
  | nil => simp [aggGet] at hget
  | cons q rest ih =>
      by_cases hq : (q.1 == j) = true
      · have hrec : q.2 = rec := by
          simpa [aggGet, List.find?, hq] using hget
        have hc : (q.1 == j && q.2.version == rv && !q.2.final) = true := by
          simp [hq, hrec, hv, hf]
        have hstep : (updateAggregate (q :: rest) j nv ts rv).1 =
            (q.1, { q.2 with version := nv, timestamp := ts }) ::
              (updateAggregate rest j nv ts rv).1 := by
          unfold updateAggregate
          dsimp only
          rw [List.map_cons]
          congr 1
          exact if_pos hc
        rw [hstep, hrec]
        simp [aggGet, List.find?, hq]
      · have hgr : aggGet rest j = some rec := by
          simpa [aggGet, List.find?, hq] using hget
        have hqf : (q.1 == j) = false := by simpa using hq
        have hstep : (updateAggregate (q :: rest) j nv ts rv).1 =
            q :: (updateAggregate rest j nv ts rv).1 := by
          unfold updateAggregate
          dsimp only
          rw [List.map_cons]
          congr 1
          exact if_neg (by simp [hqf])
        rw [hstep]
        simpa [aggGet, List.find?, hqf] using ih hgr

/-- Marking an aggregate final does not change any recorded version. -/
theorem aggGet_mapFinal_version (l : List (Nat × AggregateRecord))
    (id i : Nat) :
    ((aggGet (l.map fun p =>
        if p.1 == id then (p.1, { p.2 with final := true }) else p) i).elim
      0 (·.version)) = (aggGet l i).elim 0 (·.version) := by
  induction l with
  | nil => rfl
  | cons q rest ih =>
      by_cases hid : (q.1 == id) = true
      · by_cases hq : (q.1 == i) = true
        · simp [aggGet, List.find?, hid, hq]
        · simpa [aggGet, List.find?, hid, hq] using ih
      · by_cases hq : (q.1 == i) = true
        · simp [aggGet, List.find?, hid, hq]
        · simpa [aggGet, List.find?, hid, hq] using ih

/-- `finalizeAggregate` does not change any recorded version. -/
theorem aggVersionD_finalizeAggregate (s : Store) (id i : Nat) :
    aggVersionD (finalizeAggregate s id) i = aggVersionD s i := by
  unfold aggVersionD finalizeAggregate
  exact aggGet_mapFinal_version s.aggregates id i

/-- `finalizeAggregate` changes no event's aggregate or version, so the
per-aggregate version sequences are untouched. -/
theorem logRows_finalizeAggregate_versions (s : Store) (id i : Nat) :
    (logRows (finalizeAggregate s id) i).map (·.aggregate_version) =
      (logRows s i).map (·.aggregate_version) := by
  unfold logRows finalizeAggregate
  rw [List.filter_map, List.map_map]
  have hp : ((fun r : EventRow => r.aggregate_id == i) ∘ fun r =>
      if r.aggregate_id == id then { r with final := true } else r) =
      fun r : EventRow => r.aggregate_id == i := by
    funext r
    by_cases h : (r.aggregate_id == id) = true <;> simp [Function.comp, h]
  have hw : ((fun r : EventRow => r.aggregate_version) ∘ fun r =>
      if r.aggregate_id == id then { r with final := true } else r) =
      fun r : EventRow => r.aggregate_version := by
    funext r
    by_cases h : (r.aggregate_id == id) = true <;> simp [Function.comp, h]
  rw [hp, hw]

/-- A `saveEvents` call — successful or rolled back — preserves store
well-formedness: the committed batch extends the log contiguously. -/
theorem storeInv_saveEventsRun (s : Store) (aggId version ts : Nat)
    (evs : List EventInput) (bm : Option Nat) (faults : List (Option String))
    (n : Nat) (hinv : StoreInv s) :
    StoreInv (saveEventsRun s aggId version ts evs bm faults n) := by
  cases hres : saveEvents s aggId version ts evs bm faults n with
  | error e => simpa [saveEventsRun, hres] using hinv
  | ok s' =>
      have hrun : saveEventsRun s aggId version ts evs bm faults n = s' := by
        simp [saveEventsRun, hres]
      rw [hrun]
      obtain ⟨hv, hatt⟩ := saveEvents_ok_spec _ _ _ _ _ _ _ _ _ hres
      obtain ⟨hfin, hev, _, _, hagg⟩ :=
        saveEventsAttempt_ok_spec _ _ _ _ _ _ _ hatt
      rcases hagg with ⟨hv1, hnone, haggs⟩ | ⟨hv1, hcnt, haggs⟩
      · subst hv1
        constructor
        · rw [haggs, List.map_append, List.nodup_append]
          refine ⟨hinv.1, by simp, ?_⟩
          intro a ha hb
          simp only [List.map_cons, List.map_nil, List.mem_singleton] at hb
          subst hb
          obtain ⟨p, hp, hpa⟩ := List.mem_map.mp ha
          exact (aggGet_eq_none_iff _ _).mp hnone p hp hpa
        · intro i
          unfold logEndsAt
          have hlr : logRows s' i = logRows s i ++
              (eventRowsOf aggId 1 ts evs bm).filter
                (fun r => r.aggregate_id == i) := by
            unfold logRows
            rw [hev, List.filter_append]
          by_cases hi : i = aggId
          · subst hi
            have h0 : aggVersionD s i = 0 := by
              simp [aggVersionD, hnone]
            have hmt : logRows s i = [] := by
              have hprev := hinv.2 i
              unfold logEndsAt at hprev
              rw [h0] at hprev
              simpa using hprev
            rw [hlr, hmt, List.nil_append, eventRowsOf_filter_self,
              eventRowsOf_versions]
            have hg : aggGet s'.aggregates i = some ⟨evs.length, ts, false⟩ := by
              rw [haggs]
              exact aggGet_append_self _ _ _ hnone
            rw [aggVersionD, hg]
            rfl
          · rw [hlr, eventRowsOf_filter_ne _ _ _ _ _ _ hi, List.append_nil]
            have hsame : aggVersionD s' i = aggVersionD s i := by
              rw [aggVersionD, aggVersionD, haggs,
                aggGet_append_ne _ _ _ _ hi]
            rw [hsame]
            exact hinv.2 i
      · obtain ⟨rec, hmem, hrecv, hrecf⟩ :=
          exists_record_of_countP_ne_zero _ _ _ hcnt
        have hget : aggGet s.aggregates aggId = some rec :=
          aggGet_of_mem_nodup _ _ _ hinv.1 hmem
        constructor
        · rw [haggs, updateAggregate_keys]
          exact hinv.1
        · intro i
          unfold logEndsAt
          have hlr : logRows s' i = logRows s i ++
              (eventRowsOf aggId version ts evs bm).filter
                (fun r => r.aggregate_id == i) := by
            unfold logRows
            rw [hev, List.filter_append]
          by_cases hi : i = aggId
          · subst hi
            have hvd : aggVersionD s i = version - 1 := by
              rw [aggVersionD, hget]
              simpa using hrecv
            have hprev := hinv.2 i
            unfold logEndsAt at hprev
            rw [hvd] at hprev
            rw [hlr, eventRowsOf_filter_self, List.map_append, hprev,
              eventRowsOf_versions]
            have hvd' : aggVersionD s' i = version + evs.length - 1 := by
              rw [aggVersionD, haggs,
                aggGet_updateAggregate_self _ _ _ _ _ _ hget hrecv hrecf]
              rfl
            rw [hvd']
            have hr := List.range'_append 1 (version - 1) evs.length 1
            rw [show 1 + 1 * (version - 1) = version from by omega] at hr
            rw [hr, show evs.length + (version - 1) =
              version + evs.length - 1 from by omega]
          · rw [hlr, eventRowsOf_filter_ne _ _ _ _ _ _ hi, List.append_nil]
            have hsame : aggVersionD s' i = aggVersionD s i := by
              rw [aggVersionD, aggVersionD, haggs,
                aggGet_updateAggregate_ne _ _ _ _ _ _ hi]
            rw [hsame]
            exact hinv.2 i

/-- `finalizeAggregate` preserves store well-formedness. -/
theorem storeInv_finalizeAggregate (s : Store) (id : Nat)
    (hinv : StoreInv s) : StoreInv (finalizeAggregate s id) := by
  constructor
  · have hk : (finalizeAggregate s id).aggregates.map Prod.fst =
        s.aggregates.map Prod.fst := by
      unfold finalizeAggregate
      rw [List.map_map]
      exact List.map_congr_left fun p _ => by
        by_cases h : (p.1 == id) = true <;> simp [Function.comp, h]
    rw [hk]
    exact hinv.1
  · intro i
    unfold logEndsAt
    rw [logRows_finalizeAggregate_versions, aggVersionD_finalizeAggregate]
    exact hinv.2 i

/-- Every store reachable by adapter calls from the empty store is
well-formed. -/
theorem storeInv_runOps (ops : List StoreOp) : StoreInv (runOps ops) := by
  suffices h : ∀ s, StoreInv s → StoreInv (ops.foldl runOp s) from
    h Store.empty ⟨List.nodup_nil, fun id => rfl⟩
  induction ops with
  | nil => intro s hs; exact hs
  | cons op rest ih =>
      intro s hs
      rw [List.foldl_cons]
      apply ih
      cases op with
      | save aggId version ts evs bm faults n =>
          exact storeInv_saveEventsRun _ _ _ _ _ _ _ _ hs
      | finalize aggId => exact storeInv_finalizeAggregate _ _ hs

/-- C4. Starting from the empty store, after any sequence of `saveEvents`
and `finalizeAggregate` calls (failed saves roll back and change nothing),
the `aggregate.version` values that `listEvents` returns for any id are
exactly `1, 2, ..., N` in ascending order, with no gaps and no
duplicates. -/
theorem listEvents_versions_contiguous (ops : List StoreOp) (id : Nat) :
    (listEvents (runOps ops) (some (id, none)) none).map
        (·.aggregate_version) =
      List.range' 1
        ((listEvents (runOps ops) (some (id, none)) none).length) := by
  have hinv := storeInv_runOps ops
  set s := runOps ops with hs
  have h1 : listEvents s (some (id, none)) none =
      (logRows s id).mergeSort eventLe := by
    unfold listEvents logRows
    congr 1
    exact List.filter_congr fun r _ => by simp
  have hrows := hinv.2 id
  unfold logEndsAt at hrows
  have hlt : List.Pairwise
      (fun a b : EventRow => a.aggregate_version < b.aggregate_version)
      (logRows s id) := by
    have hp := List.pairwise_lt_range' 1 (aggVersionD s id) 1
    rw [← hrows] at hp
    exact List.pairwise_map.mp hp
  have hpair : List.Pairwise (fun a b : EventRow => eventLe a b = true)
      (logRows s id) := by
    refine hlt.imp_of_mem ?_
    intro a b ha hb hab
    have hida : a.aggregate_id = id := by
      have := (List.mem_filter.mp ha).2
      simpa using this
    have hidb : b.aggregate_id = id := by
      have := (List.mem_filter.mp hb).2
      simpa using this
    simp [eventLe, hida, hidb, Nat.le_of_lt hab]
  rw [h1, List.mergeSort_of_sorted hpair, hrows]
  have hlen := congrArg List.length hrows
  simp only [List.length_map, List.length_range'] at hlen
  rw [hlen]

end Arque
